import Mathlib

/-!
Verification development for a Brainfuck genetic-algorithm playground.

The definitions below are a shallow embedding of the two core modules of the
repository, `src/utils/brainfuck.ts` and `src/utils/genetic-algorithm.ts`:

* programs are lists of characters, input and output are lists of byte values;
* the 30000-cell tape is a function `Nat → Nat` with values kept in `0..255`;
* JavaScript numbers appearing in fitness/accuracy computations are modelled
  as rationals;
* `Math.random()` is modelled as an explicit stream of rational draws in
  `[0,1)`, threaded through every randomized operation in JavaScript
  evaluation order;
* the unbounded `while` loops of `initialize`/`evolve` take a fuel parameter
  and return `Option`, `none` meaning the loop has not finished within the
  given fuel.
-/

set_option maxRecDepth 100000

namespace BFGA

/-! ### Interpreter state (`executeBrainfuck` in brainfuck.ts) -/

structure BFState where
  memory : Nat → Nat
  pointer : Nat
  codePointer : Nat
  inputPointer : Nat
  output : List Nat
  steps : Nat
  halted : Bool

/-- The bracket-match table of `buildBracketMap`: a linear pass with a stack
of the positions of currently open `[`.  A `]` seen with an empty stack is
left unmatched (no entry is written), exactly as in the source. -/
def buildBracketMapAux : List Char → Nat → List Nat → List (Nat × Nat) → List (Nat × Nat)
  | [], _, _, m => m
  | c :: rest, i, stack, m =>
    if c = '[' then
      buildBracketMapAux rest (i + 1) (i :: stack) m
    else if c = ']' then
      match stack with
      | [] => buildBracketMapAux rest (i + 1) [] m
      | start :: stack' =>
        buildBracketMapAux rest (i + 1) stack' ((start, i) :: (i, start) :: m)
    else
      buildBracketMapAux rest (i + 1) stack m

def buildBracketMap (code : List Char) : List (Nat × Nat) :=
  buildBracketMapAux code 0 [] []

/-- `steps++` at the top of the loop body. -/
def tick (s : BFState) : BFState := { s with steps := s.steps + 1 }

/-- The `switch (command)` dispatch of the loop body, applied to the state in
which `steps` has already been incremented. -/
def execCmd (code : List Char) (bm : List (Nat × Nat)) (input : List Nat)
    (s1 : BFState) : BFState :=
  let c := code.getD s1.codePointer ' '
  if c = '>' then
    { s1 with pointer := (s1.pointer + 1) % 30000, codePointer := s1.codePointer + 1 }
  else if c = '<' then
    { s1 with pointer := (s1.pointer + 30000 - 1) % 30000, codePointer := s1.codePointer + 1 }
  else if c = '+' then
    { s1 with
      memory := fun p => if p = s1.pointer then (s1.memory s1.pointer + 1) % 256 else s1.memory p,
      codePointer := s1.codePointer + 1 }
  else if c = '-' then
    { s1 with
      memory := fun p => if p = s1.pointer then (s1.memory s1.pointer + 255) % 256 else s1.memory p,
      codePointer := s1.codePointer + 1 }
  else if c = '.' then
    { s1 with output := s1.output ++ [s1.memory s1.pointer], codePointer := s1.codePointer + 1 }
  else if c = ',' then
    if s1.inputPointer < input.length then
      { s1 with
        memory := fun p => if p = s1.pointer then input.getD s1.inputPointer 0 else s1.memory p,
        inputPointer := s1.inputPointer + 1,
        codePointer := s1.codePointer + 1 }
    else
      { s1 with
        memory := fun p => if p = s1.pointer then 0 else s1.memory p,
        codePointer := s1.codePointer + 1 }
  else if c = '[' then
    if s1.memory s1.pointer = 0 then
      match bm.lookup s1.codePointer with
      | some target => { s1 with codePointer := target + 1 }
      | none => { s1 with halted := true }
    else
      { s1 with codePointer := s1.codePointer + 1 }
  else if c = ']' then
    if s1.memory s1.pointer ≠ 0 then
      match bm.lookup s1.codePointer with
      | some target => { s1 with codePointer := target + 1 }
      | none => { s1 with halted := true }
    else
      { s1 with codePointer := s1.codePointer + 1 }
  else
    { s1 with codePointer := s1.codePointer + 1 }

/-- One iteration of the interpreter loop body: increment the step counter,
dispatch on the current command, advance the code pointer.  A jump through a
missing bracket-map entry (`bracketMap[codePointer]` being `undefined` in the
source, which turns the code pointer into `NaN` and so ends the `while` loop)
is modelled by setting `halted`, which makes the loop condition false
forever. -/
def execStep (code : List Char) (bm : List (Nat × Nat)) (input : List Nat)
    (s : BFState) : BFState :=
  execCmd code bm input (tick s)

/-- The interpreter `while` loop.  The source condition is
`codePointer < code.length && steps < maxSteps`; since `steps` starts at `0`
and increases by exactly one per iteration, the budget is modelled as a fuel
argument initialised to `maxSteps` and decremented each iteration. -/
def runLoop (code : List Char) (bm : List (Nat × Nat)) (input : List Nat) :
    Nat → BFState → BFState
  | 0, s => s
  | fuel + 1, s =>
    if s.codePointer < code.length ∧ s.halted = false then
      runLoop code bm input fuel (execStep code bm input s)
    else s

def initState : BFState :=
  { memory := fun _ => 0, pointer := 0, codePointer := 0, inputPointer := 0,
    output := [], steps := 0, halted := false }

/-- `executeBrainfuck(code, input, maxSteps)`: run the loop from the fresh
state and return the accumulated output. -/
def executeBrainfuck (code : List Char) (input : List Nat) (maxSteps : Nat) : List Nat :=
  (runLoop code (buildBracketMap code) input maxSteps initState).output

/-- Number of loop iterations (`steps` in the source) actually executed. -/
def execStepsCount (code : List Char) (input : List Nat) (maxSteps : Nat) : Nat :=
  (runLoop code (buildBracketMap code) input maxSteps initState).steps

/-! ### Randomness

`Math.random()` is modelled as an explicit stream of rational draws; every
randomized function takes the stream, consumes draws in source evaluation
order, and returns the rest of the stream. -/

def RandStream : Type := Nat → ℚ

def rsHead (r : RandStream) : ℚ := r 0

def rsDrop (k : Nat) (r : RandStream) : RandStream := fun n => r (n + k)

/-- All draws of the stream lie in `[0, 1)`, as `Math.random()` guarantees. -/
def rsValid (r : RandStream) : Prop := ∀ n, 0 ≤ r n ∧ r n < 1

/-- `Math.floor(q * n)` for a draw `q`, as used to pick a random index. -/
def randIndex (q : ℚ) (n : Nat) : Nat := (Int.floor (q * n)).toNat

/-- The 8-symbol command alphabet. -/
def commands : List Char := ['>', '<', '+', '-', '.', ',', '[', ']']

/-- JavaScript's `s || '+'` on program strings: fall back to a single
increment-cell symbol when the string is empty. -/
def orPlus (l : List Char) : List Char := if l = [] then ['+'] else l

/-! ### `generateRandomProgram` -/

/-- The generation `for` loop: one draw per position; `]` is excluded from
the draw set while the bracket depth is zero. -/
def genLoop : Nat → Nat → List Char → RandStream → List Char × Nat × RandStream
  | 0, depth, acc, r => (acc, depth, r)
  | n + 1, depth, acc, r =>
    let available := if depth = 0 then commands.filter (fun c => c ≠ ']') else commands
    let cmd := available.getD (randIndex (rsHead r) available.length) '+'
    let depth' := if cmd = '[' then depth + 1 else if cmd = ']' then depth - 1 else depth
    genLoop n depth' (acc ++ [cmd]) (rsDrop 1 r)

/-- The closing `while` loop: append `]` once per remaining open depth while
the program stays under `maxLength`. -/
def closeLoop (maxLength : Nat) : Nat → List Char → List Char
  | 0, p => p
  | d + 1, p => if p.length < maxLength then closeLoop maxLength d (p ++ [']']) else p

def generateRandomProgram (length maxLength : Nat) (r : RandStream) :
    List Char × RandStream :=
  let res := genLoop length 0 [] r
  let closed := closeLoop maxLength res.2.1 res.1
  (if maxLength < closed.length then closed.take maxLength else closed, res.2.2)

/-! ### `mutateProgram` -/

/-- Draw `k` random command symbols (the insertion/growth inner loops). -/
def drawCommands : Nat → RandStream → List Char × RandStream
  | 0, r => ([], r)
  | k + 1, r =>
    let cmd := commands.getD (randIndex (rsHead r) 8) '+'
    let rest := drawCommands k (rsDrop 1 r)
    (cmd :: rest.1, rest.2)

/-- The per-symbol mutation pass.  With probability `rate` one of three
actions fires: replace (`mutationType < 0.4`), keep-and-insert 1 or 2–4
symbols (`< 0.7`; the count draw happens lazily exactly as in the source
ternary), or delete, possibly together with the following symbol
(`Math.random() < 0.3 && i + 1 < program.length`). -/
def mutateMainLoop (rate : ℚ) : List Char → List Char → RandStream → List Char × RandStream
  | [], acc, r => (acc, r)
  | c :: rest, acc, r =>
    if r 0 < rate then
      if r 1 < (2 : ℚ) / 5 then
        let cmd := commands.getD (randIndex (r 2) 8) '+'
        mutateMainLoop rate rest (acc ++ [cmd]) (rsDrop 3 r)
      else if r 1 < (7 : ℚ) / 10 then
        if r 2 < (7 : ℚ) / 10 then
          let cmd := commands.getD (randIndex (r 3) 8) '+'
          mutateMainLoop rate rest (acc ++ [c, cmd]) (rsDrop 4 r)
        else
          let k := randIndex (r 3) 3 + 2
          let ins := drawCommands k (rsDrop 4 r)
          mutateMainLoop rate rest (acc ++ c :: ins.1) ins.2
      else
        if r 2 < (3 : ℚ) / 10 then
          match rest with
          | [] => mutateMainLoop rate [] acc (rsDrop 3 r)
          | _ :: rest2 => mutateMainLoop rate rest2 acc (rsDrop 3 r)
        else
          mutateMainLoop rate rest acc (rsDrop 3 r)
    else
      mutateMainLoop rate rest (acc ++ [c]) (rsDrop 1 r)
  termination_by l => l.length

/-- The growth inner loop: add one random symbol per iteration while the
program stays under `maxLength`, prepending or appending. -/
def growLoop (maxLength : Nat) (prepend : Bool) : Nat → List Char → RandStream → List Char × RandStream
  | 0, p, r => (p, r)
  | k + 1, p, r =>
    if p.length < maxLength then
      let cmd := commands.getD (randIndex (rsHead r) 8) '+'
      growLoop maxLength prepend k (if prepend then cmd :: p else p ++ [cmd]) (rsDrop 1 r)
    else (p, r)

def mutateProgram (program : List Char) (rate : ℚ) (maxLength : Nat) (r : RandStream) :
    List Char × RandStream :=
  let m1 := mutateMainLoop rate program [] r
  let g :=
    if rsHead m1.2 < rate * (1 / 2) ∧ m1.1.length < maxLength then
      let maxGrowth := min 5 (maxLength - m1.1.length)
      let growthSize := randIndex (m1.2 2) maxGrowth + 1
      growLoop maxLength (decide (m1.2 1 < (1 : ℚ) / 2)) growthSize m1.1 (rsDrop 3 m1.2)
    else (m1.1, rsDrop 1 m1.2)
  let sh :=
    if rsHead g.2 < rate * (3 / 10) ∧ 3 < g.1.length then
      let segmentStart := randIndex (g.2 1) g.1.length
      let segmentLength := randIndex (g.2 2) (min (g.1.length - segmentStart) 5) + 1
      (g.1.take segmentStart ++ g.1.drop (segmentStart + segmentLength), rsDrop 3 g.2)
    else (g.1, rsDrop 1 g.2)
  let t := if maxLength < sh.1.length then sh.1.take maxLength else sh.1
  (orPlus t, sh.2)

/-! ### `crossoverPrograms` -/

/-- `interleavePrograms`' `while` loop: alternate segments of 1–5 symbols,
switching sides each iteration and forcing the side whenever the other
program is exhausted.  The loop makes progress on every iteration except
possibly the first, so `p1.length + p2.length + 1` fuel is always enough. -/
def interleaveLoop (p1 p2 : List Char) :
    Nat → Nat → Nat → Bool → List Char → RandStream → List Char × RandStream
  | 0, _, _, _, acc, r => (acc, r)
  | fuel + 1, i1, i2, useFirst, acc, r =>
    if i1 < p1.length ∨ i2 < p2.length then
      let segLen := randIndex (rsHead r) 5 + 1
      let next :=
        if useFirst ∧ i1 < p1.length then
          let e := min (i1 + segLen) p1.length
          (acc ++ ((p1.drop i1).take (e - i1)), e, i2)
        else if useFirst = false ∧ i2 < p2.length then
          let e := min (i2 + segLen) p2.length
          (acc ++ ((p2.drop i2).take (e - i2)), i1, e)
        else (acc, i1, i2)
      let uf1 := !useFirst
      let uf2 := if p1.length ≤ next.2.1 then false else uf1
      let uf3 := if p2.length ≤ next.2.2 then true else uf2
      interleaveLoop p1 p2 fuel next.2.1 next.2.2 uf3 next.1 (rsDrop 1 r)
    else (acc, r)

def interleavePrograms (p1 p2 : List Char) (r : RandStream) : List Char × RandStream :=
  let res := interleaveLoop p1 p2 (p1.length + p2.length + 1) 0 0 true [] r
  (orPlus res.1, res.2)

/-- The uniform crossover `for` loop: JavaScript's out-of-range character
access yields the empty string, modelled as an empty-or-singleton list. -/
def uniformLoop (p1 p2 : List Char) :
    Nat → Nat → List Char → List Char → RandStream → (List Char × List Char) × RandStream
  | 0, _, a1, a2, r => ((a1, a2), r)
  | k + 1, i, a1, a2, r =>
    let ch1 : List Char := if i < p1.length then [p1.getD i '+'] else []
    let ch2 : List Char := if i < p2.length then [p2.getD i '+'] else []
    if rsHead r < (1 : ℚ) / 2 then
      uniformLoop p1 p2 k (i + 1) (a1 ++ ch1) (a2 ++ ch2) (rsDrop 1 r)
    else
      uniformLoop p1 p2 k (i + 1) (a1 ++ ch2) (a2 ++ ch1) (rsDrop 1 r)

def crossoverPrograms (parent1 parent2 : List Char) (r : RandStream) :
    (List Char × List Char) × RandStream :=
  if parent1.length = 0 ∨ parent2.length = 0 then ((parent1, parent2), r)
  else if r 0 < (2 : ℚ) / 5 then
    let point1 := randIndex (r 1) parent1.length
    let point2 := randIndex (r 2) parent2.length
    ((parent1.take point1 ++ parent2.drop point2,
      parent2.take point2 ++ parent1.drop point1), rsDrop 3 r)
  else if r 0 < (7 : ℚ) / 10 then
    let start1 := randIndex (r 1) parent1.length
    let end1 := min (start1 + randIndex (r 2) (parent1.length - start1)) parent1.length
    let start2 := randIndex (r 3) parent2.length
    let end2 := min (start2 + randIndex (r 4) (parent2.length - start2)) parent2.length
    ((parent1.take start1 ++ ((parent2.drop start2).take (end2 - start2)) ++ parent1.drop end1,
      parent2.take start2 ++ ((parent1.drop start1).take (end1 - start1)) ++ parent2.drop end2),
     rsDrop 5 r)
  else if r 0 < (17 : ℚ) / 20 then
    if r 1 < (1 : ℚ) / 2 then
      let res1 := interleavePrograms parent1 parent2 (rsDrop 2 r)
      let res2 := interleavePrograms parent2 parent1 res1.2
      ((res1.1, res2.1), res2.2)
    else
      let child1 := if r 2 < (1 : ℚ) / 2 then parent1 ++ parent2 else parent2 ++ parent1
      let child2 := if r 3 < (1 : ℚ) / 2 then parent2 ++ parent1 else parent1 ++ parent2
      ((child1, child2), rsDrop 4 r)
  else
    let res := uniformLoop parent1 parent2 (max parent1.length parent2.length) 0 [] [] (rsDrop 1 r)
    ((orPlus res.1.1, orPlus res.1.2), res.2)

/-! ### Genetic algorithm data model (genetic-algorithm.ts) -/

structure TestCase where
  input : List Nat
  expected : List Nat
deriving DecidableEq

structure Individual where
  code : List Char
  fitness : ℚ
  accuracy : ℚ
  results : List Bool
  outputs : List (List Nat)
  trainResults : List Bool
  testResults : List Bool
  trainAccuracy : ℚ
  testAccuracy : ℚ
deriving DecidableEq

structure GASettings where
  populationSize : Nat
  mutationRate : ℚ
  crossoverRate : ℚ
  elitism : Nat
  maxGenerations : Nat
  maxProgramLength : Nat
deriving DecidableEq

/-- `evaluateIndividual`: run the program on every train and test case with
the interpreter's default step budget of 10000 and derive accuracies and
fitness.  The interpreter is total, so the source's `try`/`catch` never
fires. -/
def evaluateIndividual (trainCases testCases : List TestCase) (code : List Char) : Individual :=
  let trainOutputs := trainCases.map (fun tc => executeBrainfuck code tc.input 10000)
  let trainResults := trainCases.map (fun tc => decide (executeBrainfuck code tc.input 10000 = tc.expected))
  let passedTrainTests := trainResults.count true
  let testOutputs := testCases.map (fun tc => executeBrainfuck code tc.input 10000)
  let testResults := testCases.map (fun tc => decide (executeBrainfuck code tc.input 10000 = tc.expected))
  let passedTestTests := testResults.count true
  let trainAccuracy : ℚ :=
    if 0 < trainCases.length then ((passedTrainTests : ℚ) / (trainCases.length : ℚ)) * 100 else 0
  let testAccuracy : ℚ :=
    if 0 < testCases.length then ((passedTestTests : ℚ) / (testCases.length : ℚ)) * 100 else 0
  let lengthPenalty : ℚ := min ((code.length : ℚ) * (1 / 10)) 5
  let fitness : ℚ := max 0 (trainAccuracy - lengthPenalty)
  { code := code, fitness := fitness, accuracy := trainAccuracy,
    results := trainResults, outputs := trainOutputs,
    trainResults := trainResults, testResults := testResults,
    trainAccuracy := trainAccuracy, testAccuracy := testAccuracy }

instance : Inhabited Individual :=
  ⟨{ code := [], fitness := 0, accuracy := 0, results := [], outputs := [],
     trainResults := [], testResults := [], trainAccuracy := 0, testAccuracy := 0 }⟩

/-- Ordering used by `sortPopulation` (comparator `b.fitness - a.fitness`,
i.e. descending fitness). -/
def fitGE (a b : Individual) : Prop := b.fitness ≤ a.fitness

instance : DecidableRel fitGE := fun a b => inferInstanceAs (Decidable (b.fitness ≤ a.fitness))

instance : IsTotal Individual fitGE := ⟨fun a b => le_total b.fitness a.fitness⟩

instance : IsTrans Individual fitGE := ⟨fun _ _ _ h1 h2 => le_trans h2 h1⟩

/-- `sortPopulation`: JavaScript's `Array.prototype.sort` is a stable sort,
so it is modelled by (stable) insertion sort under the comparator's order. -/
def sortPopulation (population : List Individual) : List Individual :=
  population.insertionSort fitGE

/-- `tournamentSelection`: three uniform draws with replacement, keeping the
candidate of highest fitness. -/
def tournamentSelection (population : List Individual) (r : RandStream) :
    Individual × RandStream :=
  let b0 := population.getD (randIndex (r 0) population.length) default
  let c1 := population.getD (randIndex (r 1) population.length) default
  let b1 := if b0.fitness < c1.fitness then c1 else b0
  let c2 := population.getD (randIndex (r 2) population.length) default
  let b2 := if b1.fitness < c2.fitness then c2 else b1
  (b2, rsDrop 3 r)

/-! ### `evolve` -/

/-- "Add unique children only": score and append the candidate program and
register its string, unless the string is already taken. -/
def addIfUnique (trainCases testCases : List TestCase)
    (pop : List Individual) (uniq : List (List Char)) (c : List Char) :
    List Individual × List (List Char) :=
  if c ∈ uniq then (pop, uniq)
  else (pop ++ [evaluateIndividual trainCases testCases c], c :: uniq)

/-- The guarded second-child insertion: additionally requires the new
population not to be full yet. -/
def addIfUniqueBounded (settings : GASettings) (trainCases testCases : List TestCase)
    (pop : List Individual) (uniq : List (List Char)) (c : List Char) :
    List Individual × List (List Char) :=
  if pop.length < settings.populationSize ∧ c ∉ uniq then
    (pop ++ [evaluateIndividual trainCases testCases c], c :: uniq)
  else (pop, uniq)

/-- The offspring `while` loop of `evolve`, bounded by
`populationSize * 10` total attempts (the fuel argument is the number of
remaining attempts).  Each attempt selects two parents by tournament,
applies crossover with probability `crossoverRate`, mutates both children
and inserts each child only if its program string is not already taken
(child 2 additionally only while the new population is not full). -/
def evolveOffspringLoop (settings : GASettings) (trainCases testCases : List TestCase)
    (population : List Individual) :
    Nat → List Individual → List (List Char) → RandStream →
    List Individual × List (List Char) × RandStream
  | 0, newPop, uniq, r => (newPop, uniq, r)
  | remAttempts + 1, newPop, uniq, r =>
    if newPop.length < settings.populationSize then
      let p1 := tournamentSelection population r
      let p2 := tournamentSelection population p1.2
      let children :=
        if rsHead p2.2 < settings.crossoverRate then
          crossoverPrograms p1.1.code p2.1.code (rsDrop 1 p2.2)
        else ((p1.1.code, p2.1.code), rsDrop 1 p2.2)
      let m1 := mutateProgram children.1.1 settings.mutationRate settings.maxProgramLength children.2
      let m2 := mutateProgram children.1.2 settings.mutationRate settings.maxProgramLength m1.2
      let step1 := addIfUnique trainCases testCases newPop uniq m1.1
      let step2 := addIfUniqueBounded settings trainCases testCases step1.1 step1.2 m2.1
      evolveOffspringLoop settings trainCases testCases population remAttempts step2.1 step2.2 m2.2
    else (newPop, uniq, r)

/-- The fallback `while` loop of `evolve` ("fill remaining slots with random
unique individuals if needed").  The source loop is unbounded, so it takes
fuel and returns `none` when the fuel runs out before the loop condition
fails. -/
def evolveFallbackLoop (settings : GASettings) (trainCases testCases : List TestCase) :
    Nat → List Individual → List (List Char) → RandStream →
    Option (List Individual × RandStream)
  | 0, newPop, _, r =>
    if newPop.length < settings.populationSize then none else some (newPop, r)
  | fuel + 1, newPop, uniq, r =>
    if newPop.length < settings.populationSize then
      let g := generateRandomProgram (randIndex (rsHead r) (min settings.maxProgramLength 50) + 5)
        settings.maxProgramLength (rsDrop 1 r)
      if g.1 ∈ uniq then
        evolveFallbackLoop settings trainCases testCases fuel newPop uniq g.2
      else
        evolveFallbackLoop settings trainCases testCases fuel
          (newPop ++ [evaluateIndividual trainCases testCases g.1]) (g.1 :: uniq) g.2
    else some (newPop, r)

/-- One `evolve()` call: keep the top `elitism` individuals, run the bounded
offspring loop, run the (unbounded, fuelled) fallback loop, truncate to
`populationSize`, sort descending by fitness and increment the generation
counter. -/
def evolve (settings : GASettings) (trainCases testCases : List TestCase)
    (population : List Individual) (generation : Nat) (fuel : Nat) (r : RandStream) :
    Option (List Individual × Nat × RandStream) :=
  let elite := population.take settings.elitism
  let uniq := elite.map Individual.code
  let off := evolveOffspringLoop settings trainCases testCases population
    (settings.populationSize * 10) elite uniq r
  match evolveFallbackLoop settings trainCases testCases fuel off.1 off.2.1 off.2.2 with
  | none => none
  | some res =>
    some (sortPopulation (res.1.take settings.populationSize), generation + 1, res.2)

/-! ### `initialize` -/

/-- The seeding loop of `initialize`: deduplicated seed genomes are scored
and added, capped at 30% of the population size. -/
def initSeedLoop (settings : GASettings) (trainCases testCases : List TestCase) :
    List (List Char) → Nat → List Individual → List (List Char) →
    List Individual × List (List Char)
  | [], _, pop, uniq => (pop, uniq)
  | seed :: rest, seededCount, pop, uniq =>
    if settings.populationSize * 3 / 10 ≤ seededCount then (pop, uniq)
    else if seed ∈ uniq then initSeedLoop settings trainCases testCases rest seededCount pop uniq
    else initSeedLoop settings trainCases testCases rest (seededCount + 1)
      (pop ++ [evaluateIndividual trainCases testCases seed]) (seed :: uniq)

/-- The length draw of the filling loop of `initialize`: 20% short (5–15),
60% medium (16–40), 20% long (41 up to `min maxProgramLength 100`; the
`Math.floor` of a possibly negative product is taken over the integers, as
in the source). -/
def initLengthDraw (settings : GASettings) (r : RandStream) : Nat :=
  if r 0 < (1 : ℚ) / 5 then randIndex (r 1) 11 + 5
  else if r 0 < (4 : ℚ) / 5 then randIndex (r 1) 25 + 16
  else
    (Int.floor ((r 1) * (((min settings.maxProgramLength 100 : Nat) : ℚ) - 40)) + 41).toNat

/-- The filling `while` loop of `initialize`: draw a length category,
generate a program of that length and add it only if its string is unique.
The source loop is unbounded, so it takes fuel and returns `none` when the
fuel runs out first. -/
def initFillLoop (settings : GASettings) (trainCases testCases : List TestCase) :
    Nat → List Individual → List (List Char) → RandStream →
    Option (List Individual × RandStream)
  | 0, pop, _, r =>
    if pop.length < settings.populationSize then none else some (pop, r)
  | fuel + 1, pop, uniq, r =>
    if pop.length < settings.populationSize then
      let g := generateRandomProgram (initLengthDraw settings r) settings.maxProgramLength (rsDrop 2 r)
      if g.1 ∈ uniq then
        initFillLoop settings trainCases testCases fuel pop uniq g.2
      else
        initFillLoop settings trainCases testCases fuel
          (pop ++ [evaluateIndividual trainCases testCases g.1]) (g.1 :: uniq) g.2
    else some (pop, r)

/-- `initialize()`: seed, fill with unique random programs, sort descending
by fitness. -/
def initPopulation (settings : GASettings) (trainCases testCases : List TestCase)
    (seedGenomes : List (List Char)) (fuel : Nat) (r : RandStream) :
    Option (List Individual × RandStream) :=
  let seeded := initSeedLoop settings trainCases testCases seedGenomes 0 [] []
  match initFillLoop settings trainCases testCases fuel seeded.1 seeded.2 r with
  | none => none
  | some res => some (sortPopulation res.1, res.2)

/-- `getBestIndividual()`: the head of the (sorted) population, `null` when
the population is empty. -/
def getBestIndividual (population : List Individual) : Option Individual :=
  population.head?

/-- `hasPerfectSolution()`. -/
def hasPerfectSolution (population : List Individual) (testCases : List TestCase) : Bool :=
  match getBestIndividual population with
  | none => false
  | some best =>
    decide (best.trainAccuracy = 100) &&
      (decide (testCases.length = 0) || decide (best.testAccuracy = 100))

/-! ### Concrete fixtures used by witnesses and counterexamples -/

/-- The all-zero draw stream (a perfectly legal value of `Math.random()`). -/
def rzero : RandStream := fun _ => 0

/-- The program `+[+]`. -/
def plusLoop : List Char := ['+', '[', '+', ']']

/-- The program the generator produces from the all-zero stream at target
length 5 (each draw picks `>`). -/
def fiveRights : List Char := ['>', '>', '>', '>', '>']

def settingsOne : GASettings :=
  { populationSize := 1, mutationRate := 1 / 2, crossoverRate := 1 / 2,
    elitism := 1, maxGenerations := 10, maxProgramLength := 100 }

def settingsTwo : GASettings :=
  { populationSize := 2, mutationRate := 1 / 2, crossoverRate := 1 / 2,
    elitism := 1, maxGenerations := 10, maxProgramLength := 100 }

/-- A concrete evaluated individual (program `+`, no cases). -/
def indPlus : Individual := evaluateIndividual [] [] ['+']

/-- The one-individual population holding the scored `>>>>>` program: the
state of the `initialize` filling loop after its first iteration on the
all-zero stream. -/
def fillPop1 : List Individual := [evaluateIndividual [] [] fiveRights]

/-- The registered program strings matching `fillPop1`. -/
def fillUniq1 : List (List Char) := [fiveRights]

/-! ### Basic interpreter lemmas -/

theorem execCmd_steps (code : List Char) (bm : List (Nat × Nat)) (input : List Nat)
    (s1 : BFState) : (execCmd code bm input s1).steps = s1.steps := by
  unfold execCmd
  dsimp only
  repeat' split
  all_goals rfl

theorem execStep_steps (code : List Char) (bm : List (Nat × Nat)) (input : List Nat)
    (s : BFState) : (execStep code bm input s).steps = s.steps + 1 := by
  rw [execStep, execCmd_steps]; rfl

theorem runLoop_steps_le (code : List Char) (bm : List (Nat × Nat)) (input : List Nat) :
    ∀ (fuel : Nat) (s : BFState), (runLoop code bm input fuel s).steps ≤ s.steps + fuel := by
  intro fuel
  induction fuel with
  | zero => intro s; simp [runLoop]
  | succ n ih =>
    intro s
    rw [runLoop]
    split
    · calc (runLoop code bm input n (execStep code bm input s)).steps
          ≤ (execStep code bm input s).steps + n := ih _
        _ = s.steps + (n + 1) := by rw [execStep_steps]; omega
    · omega

theorem runLoop_halted (code : List Char) (bm : List (Nat × Nat)) (input : List Nat) :
    ∀ (fuel : Nat) (s : BFState), s.halted = true → runLoop code bm input fuel s = s := by
  intro fuel s h
  cases fuel with
  | zero => rfl
  | succ n => simp [runLoop, h]

/-- If the final state of a run no longer satisfies the loop condition for a
reason other than the budget (code pointer past the end, or halted), then
giving the loop more fuel does not change anything. -/
theorem runLoop_fuel_mono (code : List Char) (bm : List (Nat × Nat)) (input : List Nat) :
    ∀ (fuel fuel' : Nat) (s : BFState),
      fuel ≤ fuel' →
      ¬((runLoop code bm input fuel s).codePointer < code.length ∧
        (runLoop code bm input fuel s).halted = false) →
      runLoop code bm input fuel' s = runLoop code bm input fuel s := by
  intro fuel
  induction fuel with
  | zero =>
    intro fuel' s _ hcond
    have hc : ¬(s.codePointer < code.length ∧ s.halted = false) := by
      simpa only [runLoop] using hcond
    cases fuel' with
    | zero => rfl
    | succ m => simp only [runLoop, if_neg hc]
  | succ n ih =>
    intro fuel' s hle hcond
    cases fuel' with
    | zero => omega
    | succ m =>
      by_cases hc : s.codePointer < code.length ∧ s.halted = false
      · have h1 : runLoop code bm input (n + 1) s =
            runLoop code bm input n (execStep code bm input s) := by
          simp only [runLoop, if_pos hc]
        have h2 : runLoop code bm input (m + 1) s =
            runLoop code bm input m (execStep code bm input s) := by
          simp only [runLoop, if_pos hc]
        rw [h1] at hcond
        rw [h2, h1]
        exact ih m (execStep code bm input s) (by omega) hcond
      · have h1 : runLoop code bm input (n + 1) s = s := by
          simp only [runLoop, if_neg hc]
        have h2 : runLoop code bm input (m + 1) s = s := by
          simp only [runLoop, if_neg hc]
        rw [h1, h2]

/-- An unmatched jump (loop-open on a zero cell, or loop-close on a non-zero
cell, with no bracket-map entry) makes the step function halt the machine,
leaving output, memory and pointers unchanged. -/
theorem execStep_unmatched (code : List Char) (bm : List (Nat × Nat)) (input : List Nat)
    (s : BFState)
    (h : (code.getD s.codePointer ' ' = '[' ∧ s.memory s.pointer = 0) ∨
         (code.getD s.codePointer ' ' = ']' ∧ s.memory s.pointer ≠ 0))
    (hlk : bm.lookup s.codePointer = none) :
    execStep code bm input s = { s with steps := s.steps + 1, halted := true } := by
  unfold execStep execCmd tick
  dsimp only
  rcases h with ⟨h1, h2⟩ | ⟨h1, h2⟩
  · rw [h1, hlk, h2]
    rfl
  · rw [h1, hlk]
    simp only [if_neg (by decide : ¬((']' : Char) = '>')),
      if_neg (by decide : ¬((']' : Char) = '<')),
      if_neg (by decide : ¬((']' : Char) = '+')),
      if_neg (by decide : ¬((']' : Char) = '-')),
      if_neg (by decide : ¬((']' : Char) = '.')),
      if_neg (by decide : ¬((']' : Char) = ',')),
      if_neg (by decide : ¬((']' : Char) = '[')),
      if_pos (rfl : (']' : Char) = ']'), if_pos h2]
    rfl

/-- Execution that reaches an unmatched jump halts immediately: for any
remaining fuel, the final output is exactly the output accumulated so far,
and at most one more step is counted. -/
theorem runLoop_unmatched_output (code : List Char) (input : List Nat)
    (s : BFState) (fuel : Nat)
    (hcp : s.codePointer < code.length) (hh : s.halted = false)
    (h : (code.getD s.codePointer ' ' = '[' ∧ s.memory s.pointer = 0) ∨
         (code.getD s.codePointer ' ' = ']' ∧ s.memory s.pointer ≠ 0))
    (hlk : (buildBracketMap code).lookup s.codePointer = none) :
    (runLoop code (buildBracketMap code) input fuel s).output = s.output ∧
    (runLoop code (buildBracketMap code) input fuel s).steps ≤ s.steps + 1 := by
  cases fuel with
  | zero => exact ⟨rfl, Nat.le_succ s.steps⟩
  | succ n =>
    have hrun : runLoop code (buildBracketMap code) input (n + 1) s =
        runLoop code (buildBracketMap code) input n (execStep code (buildBracketMap code) input s) := by
      simp only [runLoop, if_pos (And.intro hcp hh)]
    rw [hrun, execStep_unmatched code (buildBracketMap code) input s h hlk,
      runLoop_halted code (buildBracketMap code) input n _ rfl]
    exact ⟨rfl, le_refl _⟩

/-- `steps` never exceeds the budget. -/
theorem execStepsCount_le (code : List Char) (input : List Nat) (maxSteps : Nat) :
    execStepsCount code input maxSteps ≤ maxSteps := by
  have := runLoop_steps_le code (buildBracketMap code) input maxSteps initState
  simpa [execStepsCount, initState] using this

/-- After 512 steps the run of `+[+]` has already left the loop (the cell
wraps around to zero after 255 body increments), with the code pointer past
the end of the program. -/
theorem plusLoop_run512 :
    (runLoop plusLoop (buildBracketMap plusLoop) [] 512 initState).steps = 512 ∧
    ¬((runLoop plusLoop (buildBracketMap plusLoop) [] 512 initState).codePointer <
        plusLoop.length ∧
      (runLoop plusLoop (buildBracketMap plusLoop) [] 512 initState).halted = false) := by
  constructor
  · decide
  · intro hc
    have : (runLoop plusLoop (buildBracketMap plusLoop) [] 512 initState).codePointer = 4 := by
      decide
    rw [this] at hc
    have : plusLoop.length = 4 := by decide
    omega

/-- With any budget of at least 512 steps, `+[+]` stops after exactly 512
executed steps. -/
theorem plusLoop_steps_ge (N : Nat) (hN : 512 ≤ N) :
    execStepsCount plusLoop [] N = 512 := by
  unfold execStepsCount
  rw [runLoop_fuel_mono plusLoop (buildBracketMap plusLoop) [] 512 N initState hN
    (fun hc => plusLoop_run512.2 hc)]
  exact plusLoop_run512.1

/-- With a budget below 512 the run of `+[+]` uses the whole budget: the
concrete case used by the record. -/
theorem plusLoop_steps_100 : execStepsCount plusLoop [] 100 = 100 := by decide

/-! ### Genetic-algorithm lemmas -/

theorem evaluateIndividual_code (trainCases testCases : List TestCase) (code : List Char) :
    (evaluateIndividual trainCases testCases code).code = code := rfl

/-- The loop invariant kept by every population-building loop: the codes in
the population so far are pairwise distinct, and each of them has been
registered in the `uniqueCodes` set. -/
def PopInv (pop : List Individual) (uniq : List (List Char)) : Prop :=
  (pop.map Individual.code).Nodup ∧ ∀ i ∈ pop, i.code ∈ uniq

theorem PopInv.weaken {pop : List Individual} {uniq : List (List Char)}
    (h : PopInv pop uniq) (c : List Char) : PopInv pop (c :: uniq) :=
  ⟨h.1, fun i hi => List.mem_cons_of_mem c (h.2 i hi)⟩

theorem PopInv.push {pop : List Individual} {uniq : List (List Char)}
    (h : PopInv pop uniq) {c : List Char} (hc : c ∉ uniq)
    (trainCases testCases : List TestCase) :
    PopInv (pop ++ [evaluateIndividual trainCases testCases c]) (c :: uniq) := by
  constructor
  · rw [List.map_append]
    rw [List.nodup_append]
    refine ⟨h.1, List.nodup_singleton _, ?_⟩
    intro x hx hx'
    simp only [List.map_cons, List.map_nil, evaluateIndividual_code, List.mem_singleton] at hx'
    subst hx'
    rcases List.mem_map.mp hx with ⟨i, hi, hic⟩
    exact hc (hic ▸ h.2 i hi)
  · intro i hi
    rcases List.mem_append.mp hi with hi | hi
    · exact List.mem_cons_of_mem c (h.2 i hi)
    · rw [List.mem_singleton.mp hi, evaluateIndividual_code]
      exact List.mem_cons_self c uniq

theorem sortPopulation_sorted (l : List Individual) :
    List.Sorted fitGE (sortPopulation l) :=
  List.sorted_insertionSort fitGE l

theorem sortPopulation_perm (l : List Individual) : List.Perm (sortPopulation l) l :=
  List.perm_insertionSort fitGE l

theorem sortPopulation_length (l : List Individual) :
    (sortPopulation l).length = l.length :=
  List.length_insertionSort fitGE l

theorem sortPopulation_mem {l : List Individual} {x : Individual} :
    x ∈ sortPopulation l ↔ x ∈ l :=
  List.mem_insertionSort fitGE

theorem sortPopulation_nodup {l : List Individual}
    (h : (l.map Individual.code).Nodup) :
    ((sortPopulation l).map Individual.code).Nodup :=
  (((sortPopulation_perm l).map Individual.code).nodup_iff).mpr h

/-- In a population sorted descending by fitness, the head has the largest
fitness. -/
theorem sorted_head_max {l : List Individual} (hs : List.Sorted fitGE l)
    {b : Individual} (hb : l.head? = some b) {x : Individual} (hx : x ∈ l) :
    x.fitness ≤ b.fitness := by
  cases l with
  | nil => cases hx
  | cons a t =>
    have hba : b = a := by simpa using hb.symm
    subst hba
    rcases List.mem_cons.mp hx with hxa | hxt
    · exact le_of_eq (congrArg Individual.fitness hxa)
    · exact List.rel_of_sorted_cons hs x hxt

/-! #### `initSeedLoop` -/

theorem initSeedLoop_length (settings : GASettings) (trainCases testCases : List TestCase) :
    ∀ (seeds : List (List Char)) (cnt : Nat) (pop : List Individual) (uniq : List (List Char)),
      (initSeedLoop settings trainCases testCases seeds cnt pop uniq).1.length ≤
        pop.length + (settings.populationSize * 3 / 10 - cnt) := by
  intro seeds
  induction seeds with
  | nil => intro cnt pop uniq; simp [initSeedLoop]
  | cons seed rest ih =>
    intro cnt pop uniq
    rw [initSeedLoop]
    split
    · dsimp only
      omega
    · split
      · exact le_trans (ih cnt pop uniq) (by omega)
      · next hcap _ =>
        refine le_trans (ih (cnt + 1) _ _) ?_
        rw [List.length_append]
        simp only [List.length_singleton]
        omega

theorem initSeedLoop_inv (settings : GASettings) (trainCases testCases : List TestCase) :
    ∀ (seeds : List (List Char)) (cnt : Nat) (pop : List Individual) (uniq : List (List Char)),
      PopInv pop uniq →
      PopInv (initSeedLoop settings trainCases testCases seeds cnt pop uniq).1
        (initSeedLoop settings trainCases testCases seeds cnt pop uniq).2 := by
  intro seeds
  induction seeds with
  | nil => intro cnt pop uniq h; exact h
  | cons seed rest ih =>
    intro cnt pop uniq h
    rw [initSeedLoop]
    split
    · exact h
    · split
      · exact ih cnt pop uniq h
      · next _ hseed => exact ih (cnt + 1) _ _ (h.push hseed trainCases testCases)

/-! #### `initFillLoop` -/

theorem initFillLoop_length (settings : GASettings) (trainCases testCases : List TestCase) :
    ∀ (fuel : Nat) (pop : List Individual) (uniq : List (List Char)) (r : RandStream)
      (pop2 : List Individual) (r2 : RandStream),
      initFillLoop settings trainCases testCases fuel pop uniq r = some (pop2, r2) →
      pop.length ≤ settings.populationSize →
      pop2.length = settings.populationSize := by
  intro fuel
  induction fuel with
  | zero =>
    intro pop uniq r pop2 r2 hsome hle
    rw [initFillLoop] at hsome
    split at hsome
    · cases hsome
    · next hge =>
      cases hsome
      omega
  | succ n ih =>
    intro pop uniq r pop2 r2 hsome hle
    rw [initFillLoop] at hsome
    split at hsome
    · next hlt =>
      dsimp only at hsome
      split at hsome
      · exact ih _ _ _ _ _ hsome hle
      · refine ih _ _ _ _ _ hsome ?_
        rw [List.length_append]
        simp only [List.length_singleton]
        omega
    · next hge =>
      cases hsome
      omega

theorem initFillLoop_nodup (settings : GASettings) (trainCases testCases : List TestCase) :
    ∀ (fuel : Nat) (pop : List Individual) (uniq : List (List Char)) (r : RandStream)
      (pop2 : List Individual) (r2 : RandStream),
      initFillLoop settings trainCases testCases fuel pop uniq r = some (pop2, r2) →
      PopInv pop uniq →
      (pop2.map Individual.code).Nodup := by
  intro fuel
  induction fuel with
  | zero =>
    intro pop uniq r pop2 r2 hsome hinv
    rw [initFillLoop] at hsome
    split at hsome
    · cases hsome
    · cases hsome
      exact hinv.1
  | succ n ih =>
    intro pop uniq r pop2 r2 hsome hinv
    rw [initFillLoop] at hsome
    split at hsome
    · dsimp only at hsome
      split at hsome
      · exact ih _ _ _ _ _ hsome hinv
      · next hnew => exact ih _ _ _ _ _ hsome (hinv.push hnew trainCases testCases)
    · cases hsome
      exact hinv.1

/-! #### `addIfUnique` / `addIfUniqueBounded` -/

theorem addIfUnique_inv {trainCases testCases : List TestCase}
    {pop : List Individual} {uniq : List (List Char)} (c : List Char)
    (h : PopInv pop uniq) :
    PopInv (addIfUnique trainCases testCases pop uniq c).1
      (addIfUnique trainCases testCases pop uniq c).2 := by
  unfold addIfUnique
  split
  · exact h
  · next hc => exact h.push hc trainCases testCases

theorem addIfUniqueBounded_inv {settings : GASettings} {trainCases testCases : List TestCase}
    {pop : List Individual} {uniq : List (List Char)} (c : List Char)
    (h : PopInv pop uniq) :
    PopInv (addIfUniqueBounded settings trainCases testCases pop uniq c).1
      (addIfUniqueBounded settings trainCases testCases pop uniq c).2 := by
  unfold addIfUniqueBounded
  split
  · next hc => exact h.push hc.2 trainCases testCases
  · exact h

theorem addIfUnique_append (trainCases testCases : List TestCase)
    (pop : List Individual) (uniq : List (List Char)) (c : List Char) :
    ∃ X, (addIfUnique trainCases testCases pop uniq c).1 = pop ++ X := by
  unfold addIfUnique
  split
  · exact ⟨[], (List.append_nil pop).symm⟩
  · exact ⟨[evaluateIndividual trainCases testCases c], rfl⟩

theorem addIfUniqueBounded_append (settings : GASettings) (trainCases testCases : List TestCase)
    (pop : List Individual) (uniq : List (List Char)) (c : List Char) :
    ∃ X, (addIfUniqueBounded settings trainCases testCases pop uniq c).1 = pop ++ X := by
  unfold addIfUniqueBounded
  split
  · exact ⟨[evaluateIndividual trainCases testCases c], rfl⟩
  · exact ⟨[], (List.append_nil pop).symm⟩

theorem addIfUnique_length_le (trainCases testCases : List TestCase)
    (pop : List Individual) (uniq : List (List Char)) (c : List Char) :
    (addIfUnique trainCases testCases pop uniq c).1.length ≤ pop.length + 1 := by
  unfold addIfUnique
  split
  · dsimp only
    omega
  · simp

theorem addIfUniqueBounded_length_le (settings : GASettings) (trainCases testCases : List TestCase)
    (pop : List Individual) (uniq : List (List Char)) (c : List Char)
    (h : pop.length ≤ settings.populationSize) :
    (addIfUniqueBounded settings trainCases testCases pop uniq c).1.length ≤
      settings.populationSize := by
  unfold addIfUniqueBounded
  split
  · next hc =>
    rw [List.length_append]
    simp only [List.length_singleton]
    omega
  · exact h

/-! #### `evolveOffspringLoop` -/

theorem evolveOffspringLoop_append (settings : GASettings)
    (trainCases testCases : List TestCase) (population : List Individual) :
    ∀ (fuel : Nat) (newPop : List Individual) (uniq : List (List Char)) (r : RandStream),
      ∃ X, (evolveOffspringLoop settings trainCases testCases population fuel newPop uniq r).1 =
        newPop ++ X := by
  intro fuel
  induction fuel with
  | zero =>
    intro newPop uniq r
    exact ⟨[], (List.append_nil newPop).symm⟩
  | succ n ih =>
    intro newPop uniq r
    rw [evolveOffspringLoop]
    split
    · dsimp only
      obtain ⟨X1, hX1⟩ := addIfUnique_append trainCases testCases newPop uniq _
      obtain ⟨X2, hX2⟩ := addIfUniqueBounded_append settings trainCases testCases _ _ _
      obtain ⟨X3, hX3⟩ := ih _ _ _
      refine ⟨X1 ++ X2 ++ X3, ?_⟩
      rw [hX3, hX2, hX1]
      simp [List.append_assoc]
    · exact ⟨[], (List.append_nil newPop).symm⟩

theorem evolveOffspringLoop_inv (settings : GASettings)
    (trainCases testCases : List TestCase) (population : List Individual) :
    ∀ (fuel : Nat) (newPop : List Individual) (uniq : List (List Char)) (r : RandStream),
      PopInv newPop uniq →
      PopInv (evolveOffspringLoop settings trainCases testCases population fuel newPop uniq r).1
        (evolveOffspringLoop settings trainCases testCases population fuel newPop uniq r).2.1 := by
  intro fuel
  induction fuel with
  | zero => intro newPop uniq r h; exact h
  | succ n ih =>
    intro newPop uniq r h
    rw [evolveOffspringLoop]
    split
    · dsimp only
      exact ih _ _ _ (addIfUniqueBounded_inv _ (addIfUnique_inv _ h))
    · exact h

theorem evolveOffspringLoop_length_le (settings : GASettings)
    (trainCases testCases : List TestCase) (population : List Individual) :
    ∀ (fuel : Nat) (newPop : List Individual) (uniq : List (List Char)) (r : RandStream),
      newPop.length ≤ settings.populationSize →
      (evolveOffspringLoop settings trainCases testCases population fuel newPop uniq r).1.length ≤
        settings.populationSize := by
  intro fuel
  induction fuel with
  | zero => intro newPop uniq r h; exact h
  | succ n ih =>
    intro newPop uniq r h
    rw [evolveOffspringLoop]
    split
    · next hlt =>
      dsimp only
      refine ih _ _ _ ?_
      refine addIfUniqueBounded_length_le settings trainCases testCases _ _ _ ?_
      exact le_trans (addIfUnique_length_le trainCases testCases newPop uniq _) (by omega)
    · exact h

/-! #### `evolveFallbackLoop` -/

theorem evolveFallbackLoop_some_ge (settings : GASettings)
    (trainCases testCases : List TestCase) :
    ∀ (fuel : Nat) (newPop : List Individual) (uniq : List (List Char)) (r : RandStream)
      (pop2 : List Individual) (r2 : RandStream),
      evolveFallbackLoop settings trainCases testCases fuel newPop uniq r = some (pop2, r2) →
      settings.populationSize ≤ pop2.length := by
  intro fuel
  induction fuel with
  | zero =>
    intro newPop uniq r pop2 r2 hsome
    rw [evolveFallbackLoop] at hsome
    split at hsome
    · cases hsome
    · next hge => cases hsome; omega
  | succ n ih =>
    intro newPop uniq r pop2 r2 hsome
    rw [evolveFallbackLoop] at hsome
    split at hsome
    · dsimp only at hsome
      split at hsome
      · exact ih _ _ _ _ _ hsome
      · exact ih _ _ _ _ _ hsome
    · next hge => cases hsome; omega

/-- Structure of a successful fallback run: it only ever appends, every
appended individual's program string was not previously registered (the
fallback still rejects duplicates), and the appended program strings are
pairwise distinct. -/
theorem evolveFallbackLoop_append (settings : GASettings)
    (trainCases testCases : List TestCase) :
    ∀ (fuel : Nat) (newPop : List Individual) (uniq : List (List Char)) (r : RandStream)
      (pop2 : List Individual) (r2 : RandStream),
      evolveFallbackLoop settings trainCases testCases fuel newPop uniq r = some (pop2, r2) →
      ∃ X, pop2 = newPop ++ X ∧ (∀ i ∈ X, i.code ∉ uniq) ∧
        (X.map Individual.code).Nodup := by
  intro fuel
  induction fuel with
  | zero =>
    intro newPop uniq r pop2 r2 hsome
    rw [evolveFallbackLoop] at hsome
    split at hsome
    · cases hsome
    · cases hsome
      exact ⟨[], (List.append_nil newPop).symm, by simp, List.nodup_nil⟩
  | succ n ih =>
    intro newPop uniq r pop2 r2 hsome
    rw [evolveFallbackLoop] at hsome
    dsimp only at hsome
    set g := generateRandomProgram (randIndex (rsHead r) (min settings.maxProgramLength 50) + 5)
      settings.maxProgramLength (rsDrop 1 r) with hg
    split at hsome
    · split at hsome
      · rcases ih _ _ _ _ _ hsome with ⟨X, hX, hXu, hXn⟩
        exact ⟨X, hX, hXu, hXn⟩
      · next hnew =>
        rcases ih _ _ _ _ _ hsome with ⟨X, hX, hXu, hXn⟩
        refine ⟨evaluateIndividual trainCases testCases g.1 :: X, ?_, ?_, ?_⟩
        · rw [hX]; simp
        · intro i hi
          rcases List.mem_cons.mp hi with hi | hi
          · rw [hi, evaluateIndividual_code]; exact hnew
          · exact fun hmem => hXu i hi (List.mem_cons_of_mem _ hmem)
        · rw [List.map_cons, List.nodup_cons, evaluateIndividual_code]
          refine ⟨?_, hXn⟩
          intro hmem
          rcases List.mem_map.mp hmem with ⟨i, hi, hic⟩
          exact hXu i hi (hic ▸ List.mem_cons_self _ _)
    · cases hsome
      exact ⟨[], (List.append_nil newPop).symm, by simp, List.nodup_nil⟩

theorem evolveFallbackLoop_nodup (settings : GASettings)
    (trainCases testCases : List TestCase)
    (fuel : Nat) (newPop : List Individual) (uniq : List (List Char)) (r : RandStream)
    (pop2 : List Individual) (r2 : RandStream)
    (hsome : evolveFallbackLoop settings trainCases testCases fuel newPop uniq r = some (pop2, r2))
    (hinv : PopInv newPop uniq) :
    (pop2.map Individual.code).Nodup := by
  rcases evolveFallbackLoop_append settings trainCases testCases fuel newPop uniq r pop2 r2 hsome
    with ⟨X, hX, hXu, hXn⟩
  subst hX
  rw [List.map_append, List.nodup_append]
  refine ⟨hinv.1, hXn, ?_⟩
  intro x hx hx'
  rcases List.mem_map.mp hx with ⟨i, hi, hic⟩
  rcases List.mem_map.mp hx' with ⟨j, hj, hjc⟩
  exact hXu j hj (hjc ▸ hic ▸ hinv.2 i hi)

/-! #### `evolve` -/

/-- Unfolding of a successful `evolve` call. -/
theorem evolve_elim {settings : GASettings} {trainCases testCases : List TestCase}
    {population : List Individual} {generation fuel : Nat} {r : RandStream}
    {pop' : List Individual} {g' : Nat} {r' : RandStream}
    (h : evolve settings trainCases testCases population generation fuel r =
      some (pop', g', r')) :
    ∃ pop2 r2,
      evolveFallbackLoop settings trainCases testCases fuel
        (evolveOffspringLoop settings trainCases testCases population
          (settings.populationSize * 10) (population.take settings.elitism)
          ((population.take settings.elitism).map Individual.code) r).1
        (evolveOffspringLoop settings trainCases testCases population
          (settings.populationSize * 10) (population.take settings.elitism)
          ((population.take settings.elitism).map Individual.code) r).2.1
        (evolveOffspringLoop settings trainCases testCases population
          (settings.populationSize * 10) (population.take settings.elitism)
          ((population.take settings.elitism).map Individual.code) r).2.2 =
        some (pop2, r2) ∧
      pop' = sortPopulation (pop2.take settings.populationSize) ∧
      g' = generation + 1 := by
  unfold evolve at h
  dsimp only at h
  generalize hfb : evolveFallbackLoop settings trainCases testCases fuel
    (evolveOffspringLoop settings trainCases testCases population
      (settings.populationSize * 10) (population.take settings.elitism)
      ((population.take settings.elitism).map Individual.code) r).1
    (evolveOffspringLoop settings trainCases testCases population
      (settings.populationSize * 10) (population.take settings.elitism)
      ((population.take settings.elitism).map Individual.code) r).2.1
    (evolveOffspringLoop settings trainCases testCases population
      (settings.populationSize * 10) (population.take settings.elitism)
      ((population.take settings.elitism).map Individual.code) r).2.2 = fb at h
  cases fb with
  | none => cases h
  | some res =>
    obtain ⟨pop2, r2⟩ := res
    have h2 := Option.some.inj h
    exact ⟨pop2, r2, rfl, (congrArg Prod.fst h2).symm, (congrArg (fun t => t.2.1) h2).symm⟩

/-- After a successful `evolve`, the population has length exactly
`populationSize`. -/
theorem evolve_length {settings : GASettings} {trainCases testCases : List TestCase}
    {population : List Individual} {generation fuel : Nat} {r : RandStream}
    {pop' : List Individual} {g' : Nat} {r' : RandStream}
    (h : evolve settings trainCases testCases population generation fuel r =
      some (pop', g', r')) :
    pop'.length = settings.populationSize := by
  rcases evolve_elim h with ⟨pop2, r2, hfb, hpop, _⟩
  have hge := evolveFallbackLoop_some_ge settings trainCases testCases _ _ _ _ _ _ hfb
  rw [hpop, sortPopulation_length, List.length_take]
  omega

/-- After a successful `evolve`, the population is sorted descending by
fitness. -/
theorem evolve_sorted {settings : GASettings} {trainCases testCases : List TestCase}
    {population : List Individual} {generation fuel : Nat} {r : RandStream}
    {pop' : List Individual} {g' : Nat} {r' : RandStream}
    (h : evolve settings trainCases testCases population generation fuel r =
      some (pop', g', r')) :
    List.Sorted fitGE pop' := by
  rcases evolve_elim h with ⟨pop2, r2, _, hpop, _⟩
  rw [hpop]
  exact sortPopulation_sorted _

/-- After a successful `evolve`, the top `elitism` individuals of the old
population are present unchanged in the new population. -/
theorem evolve_elite_mem {settings : GASettings} {trainCases testCases : List TestCase}
    {population : List Individual} {generation fuel : Nat} {r : RandStream}
    {pop' : List Individual} {g' : Nat} {r' : RandStream}
    (h : evolve settings trainCases testCases population generation fuel r =
      some (pop', g', r'))
    (hep : settings.elitism ≤ population.length)
    (heps : settings.elitism ≤ settings.populationSize) :
    ∀ e ∈ population.take settings.elitism, e ∈ pop' := by
  rcases evolve_elim h with ⟨pop2, r2, hfb, hpop, _⟩
  obtain ⟨X, hX⟩ := evolveOffspringLoop_append settings trainCases testCases population
    (settings.populationSize * 10) (population.take settings.elitism)
    ((population.take settings.elitism).map Individual.code) r
  rcases evolveFallbackLoop_append settings trainCases testCases _ _ _ _ _ _ hfb
    with ⟨Y, hY, _, _⟩
  intro e he
  rw [hpop, sortPopulation_mem]
  rw [hY, hX, List.append_assoc]
  have hlen : (population.take settings.elitism).length ≤ settings.populationSize := by
    rw [List.length_take]
    omega
  rw [List.take_append_eq_append_take, List.take_of_length_le hlen]
  exact List.mem_append_left _ he

/-- After a successful `evolve` with `elitism ≥ 1`, the best fitness does
not decrease. -/
theorem evolve_best_mono {settings : GASettings} {trainCases testCases : List TestCase}
    {population : List Individual} {generation fuel : Nat} {r : RandStream}
    {pop' : List Individual} {g' : Nat} {r' : RandStream}
    (h : evolve settings trainCases testCases population generation fuel r =
      some (pop', g', r'))
    (hep : settings.elitism ≤ population.length)
    (heps : settings.elitism ≤ settings.populationSize)
    (he1 : 1 ≤ settings.elitism)
    {b b' : Individual}
    (hb : population.head? = some b) (hb' : pop'.head? = some b') :
    b.fitness ≤ b'.fitness := by
  have hbmem : b ∈ population.take settings.elitism := by
    cases population with
    | nil => cases hb
    | cons a t =>
      have hba : b = a := by simpa using hb.symm
      subst hba
      obtain ⟨k, hk⟩ : ∃ k, settings.elitism = k + 1 := ⟨settings.elitism - 1, by omega⟩
      rw [hk, List.take_succ_cons]
      exact List.mem_cons_self _ _
  have hbmem' : b ∈ pop' := evolve_elite_mem h hep heps b hbmem
  exact sorted_head_max (evolve_sorted h) hb' hbmem'

/-- A successful `evolve` preserves pairwise distinctness of the program
strings in the population. -/
theorem evolve_nodup {settings : GASettings} {trainCases testCases : List TestCase}
    {population : List Individual} {generation fuel : Nat} {r : RandStream}
    {pop' : List Individual} {g' : Nat} {r' : RandStream}
    (h : evolve settings trainCases testCases population generation fuel r =
      some (pop', g', r'))
    (hnd : (population.map Individual.code).Nodup) :
    (pop'.map Individual.code).Nodup := by
  rcases evolve_elim h with ⟨pop2, r2, hfb, hpop, _⟩
  have helite : PopInv (population.take settings.elitism)
      ((population.take settings.elitism).map Individual.code) := by
    constructor
    · rw [List.map_take]
      exact (List.take_sublist _ _).nodup hnd
    · intro i hi
      exact List.mem_map_of_mem Individual.code hi
  have hoff := evolveOffspringLoop_inv settings trainCases testCases population
    (settings.populationSize * 10) (population.take settings.elitism)
    ((population.take settings.elitism).map Individual.code) r helite
  have hpop2 := evolveFallbackLoop_nodup settings trainCases testCases _ _ _ _ _ _ hfb hoff
  rw [hpop]
  refine sortPopulation_nodup ?_
  rw [List.map_take]
  exact (List.take_sublist _ _).nodup hpop2

/-! #### `initPopulation` -/

/-- Unfolding of a successful `initialize` call. -/
theorem initPopulation_elim {settings : GASettings} {trainCases testCases : List TestCase}
    {seedGenomes : List (List Char)} {fuel : Nat} {r : RandStream}
    {pop : List Individual} {r' : RandStream}
    (h : initPopulation settings trainCases testCases seedGenomes fuel r = some (pop, r')) :
    ∃ pop2 r2,
      initFillLoop settings trainCases testCases fuel
        (initSeedLoop settings trainCases testCases seedGenomes 0 [] []).1
        (initSeedLoop settings trainCases testCases seedGenomes 0 [] []).2 r =
        some (pop2, r2) ∧
      pop = sortPopulation pop2 := by
  unfold initPopulation at h
  dsimp only at h
  generalize hfl : initFillLoop settings trainCases testCases fuel
    (initSeedLoop settings trainCases testCases seedGenomes 0 [] []).1
    (initSeedLoop settings trainCases testCases seedGenomes 0 [] []).2 r = fl at h
  cases fl with
  | none => cases h
  | some res =>
    obtain ⟨pop2, r2⟩ := res
    refine ⟨pop2, r2, rfl, ?_⟩
    have := congrArg (fun o => o.map (fun t => t.1)) h
    simpa using this.symm

/-- After a successful `initialize`, the population has length exactly
`populationSize`. -/
theorem initPopulation_length {settings : GASettings} {trainCases testCases : List TestCase}
    {seedGenomes : List (List Char)} {fuel : Nat} {r : RandStream}
    {pop : List Individual} {r' : RandStream}
    (h : initPopulation settings trainCases testCases seedGenomes fuel r = some (pop, r')) :
    pop.length = settings.populationSize := by
  rcases initPopulation_elim h with ⟨pop2, r2, hfl, hpop⟩
  have hseed := initSeedLoop_length settings trainCases testCases seedGenomes 0 [] []
  have hcap : settings.populationSize * 3 / 10 ≤ settings.populationSize := by omega
  have hlen := initFillLoop_length settings trainCases testCases fuel _ _ r pop2 r2 hfl
    (by simp at hseed; omega)
  rw [hpop, sortPopulation_length]
  exact hlen

/-- After a successful `initialize`, the population is sorted descending by
fitness. -/
theorem initPopulation_sorted {settings : GASettings} {trainCases testCases : List TestCase}
    {seedGenomes : List (List Char)} {fuel : Nat} {r : RandStream}
    {pop : List Individual} {r' : RandStream}
    (h : initPopulation settings trainCases testCases seedGenomes fuel r = some (pop, r')) :
    List.Sorted fitGE pop := by
  rcases initPopulation_elim h with ⟨pop2, r2, _, hpop⟩
  rw [hpop]
  exact sortPopulation_sorted _

/-- After a successful `initialize`, the program strings in the population
are pairwise distinct. -/
theorem initPopulation_nodup {settings : GASettings} {trainCases testCases : List TestCase}
    {seedGenomes : List (List Char)} {fuel : Nat} {r : RandStream}
    {pop : List Individual} {r' : RandStream}
    (h : initPopulation settings trainCases testCases seedGenomes fuel r = some (pop, r')) :
    (pop.map Individual.code).Nodup := by
  rcases initPopulation_elim h with ⟨pop2, r2, hfl, hpop⟩
  have hseed := initSeedLoop_inv settings trainCases testCases seedGenomes 0 [] []
    ⟨List.nodup_nil, by simp⟩
  have hnd := initFillLoop_nodup settings trainCases testCases fuel _ _ r pop2 r2 hfl hseed
  rw [hpop]
  exact sortPopulation_nodup hnd

/-! #### Fitness evaluation bounds -/

theorem evaluateIndividual_trainAccuracy_bounds (trainCases testCases : List TestCase)
    (code : List Char) :
    0 ≤ (evaluateIndividual trainCases testCases code).trainAccuracy ∧
    (evaluateIndividual trainCases testCases code).trainAccuracy ≤ 100 := by
  unfold evaluateIndividual
  dsimp only
  split
  · next hpos =>
    have hcount : ((trainCases.map fun tc =>
        decide (executeBrainfuck code tc.input 10000 = tc.expected)).count true) ≤
        trainCases.length := by
      calc ((trainCases.map fun tc =>
          decide (executeBrainfuck code tc.input 10000 = tc.expected)).count true)
          ≤ (trainCases.map fun tc =>
            decide (executeBrainfuck code tc.input 10000 = tc.expected)).length :=
            List.count_le_length _ _
        _ = trainCases.length := List.length_map _ _
    have hposq : (0 : ℚ) < trainCases.length := by exact_mod_cast hpos
    constructor
    · positivity
    · have hdiv : ((trainCases.map fun tc =>
          decide (executeBrainfuck code tc.input 10000 = tc.expected)).count true : ℚ) /
          (trainCases.length : ℚ) ≤ 1 := by
        rw [div_le_one hposq]
        exact_mod_cast hcount
      calc ((trainCases.map fun tc =>
          decide (executeBrainfuck code tc.input 10000 = tc.expected)).count true : ℚ) /
          (trainCases.length : ℚ) * 100
          ≤ 1 * 100 := by
            apply mul_le_mul_of_nonneg_right hdiv
            norm_num
        _ = 100 := one_mul _
  · exact ⟨le_refl 0, by norm_num⟩

theorem evaluateIndividual_fitness_eq (trainCases testCases : List TestCase)
    (code : List Char) :
    (evaluateIndividual trainCases testCases code).fitness =
      max 0 ((evaluateIndividual trainCases testCases code).trainAccuracy -
        min ((code.length : ℚ) * (1 / 10)) 5) := rfl

theorem evaluateIndividual_fitness_bounds (trainCases testCases : List TestCase)
    (code : List Char) :
    0 ≤ (evaluateIndividual trainCases testCases code).fitness ∧
    (evaluateIndividual trainCases testCases code).fitness ≤ 100 := by
  rw [evaluateIndividual_fitness_eq]
  constructor
  · exact le_max_left 0 _
  · apply max_le
    · norm_num
    · have hacc := (evaluateIndividual_trainAccuracy_bounds trainCases testCases code).2
      have hpen : 0 ≤ min ((code.length : ℚ) * (1 / 10)) 5 := by
        apply le_min
        · positivity
        · norm_num
      linarith

/-! #### Index draws and operator non-emptiness -/

theorem randIndex_lt {q : ℚ} (h0 : 0 ≤ q) (h1 : q < 1) {n : Nat} (hn : 0 < n) :
    randIndex q n < n := by
  unfold randIndex
  have hqn : q * (n : ℚ) < n := by
    have hnq : (0 : ℚ) < n := by exact_mod_cast hn
    have hmul := mul_lt_mul_of_pos_right h1 hnq
    rwa [one_mul] at hmul
  have hfl : Int.floor (q * (n : ℚ)) < (n : ℤ) := by
    rw [Int.floor_lt]
    push_cast
    exact hqn
  have hge : (0 : ℤ) ≤ Int.floor (q * (n : ℚ)) := by
    apply Int.le_floor.mpr
    push_cast
    positivity
  omega

theorem orPlus_ne_nil (l : List Char) : orPlus l ≠ [] := by
  unfold orPlus
  split
  · simp
  · next ht => exact ht

theorem mutateProgram_ne_nil (program : List Char) (rate : ℚ) (maxLength : Nat)
    (r : RandStream) : (mutateProgram program rate maxLength r).1 ≠ [] := by
  unfold mutateProgram
  dsimp only
  exact orPlus_ne_nil _

theorem interleavePrograms_ne_nil (p1 p2 : List Char) (r : RandStream) :
    (interleavePrograms p1 p2 r).1 ≠ [] := by
  unfold interleavePrograms
  dsimp only
  exact orPlus_ne_nil _

theorem drop_ne_nil_of_lt {l : List Char} {n : Nat} (h : n < l.length) :
    l.drop n ≠ [] := by
  intro hnil
  have := List.drop_eq_nil_iff.mp hnil
  omega

theorem crossoverPrograms_ne_nil (p1 p2 : List Char) (r : RandStream)
    (h1 : p1 ≠ []) (h2 : p2 ≠ []) (hv : rsValid r) :
    (crossoverPrograms p1 p2 r).1.1 ≠ [] ∧ (crossoverPrograms p1 p2 r).1.2 ≠ [] := by
  have hl1 : 0 < p1.length := List.length_pos.mpr h1
  have hl2 : 0 < p2.length := List.length_pos.mpr h2
  unfold crossoverPrograms
  rw [if_neg (by omega : ¬(p1.length = 0 ∨ p2.length = 0))]
  split
  · -- single-point crossover
    dsimp only
    constructor
    · intro hnil
      rcases List.append_eq_nil.mp hnil with ⟨_, hd⟩
      exact drop_ne_nil_of_lt (randIndex_lt (hv 2).1 (hv 2).2 hl2) hd
    · intro hnil
      rcases List.append_eq_nil.mp hnil with ⟨_, hd⟩
      exact drop_ne_nil_of_lt (randIndex_lt (hv 1).1 (hv 1).2 hl1) hd
  · split
    · -- two-point crossover
      dsimp only
      have hs1 : randIndex (r 1) p1.length < p1.length :=
        randIndex_lt (hv 1).1 (hv 1).2 hl1
      have hs2 : randIndex (r 3) p2.length < p2.length :=
        randIndex_lt (hv 3).1 (hv 3).2 hl2
      have he1 : min (randIndex (r 1) p1.length +
          randIndex (r 2) (p1.length - randIndex (r 1) p1.length)) p1.length < p1.length := by
        have := randIndex_lt (hv 2).1 (hv 2).2
          (n := p1.length - randIndex (r 1) p1.length) (by omega)
        omega
      have he2 : min (randIndex (r 3) p2.length +
          randIndex (r 4) (p2.length - randIndex (r 3) p2.length)) p2.length < p2.length := by
        have := randIndex_lt (hv 4).1 (hv 4).2
          (n := p2.length - randIndex (r 3) p2.length) (by omega)
        omega
      constructor
      · intro hnil
        rcases List.append_eq_nil.mp hnil with ⟨_, hd⟩
        exact drop_ne_nil_of_lt he1 hd
      · intro hnil
        rcases List.append_eq_nil.mp hnil with ⟨_, hd⟩
        exact drop_ne_nil_of_lt he2 hd
    · split
      · -- merge crossover
        split
        · -- interleave
          dsimp only
          exact ⟨interleavePrograms_ne_nil p1 p2 _, interleavePrograms_ne_nil p2 p1 _⟩
        · -- concatenation
          dsimp only
          constructor
          · split <;> simp [h1, h2]
          · split <;> simp [h1, h2]
      · -- uniform crossover
        dsimp only
        exact ⟨orPlus_ne_nil _, orPlus_ne_nil _⟩

/-! #### `hasPerfectSolution` -/

theorem hasPerfectSolution_iff (population : List Individual) (testCases : List TestCase) :
    hasPerfectSolution population testCases = true ↔
      ∃ best, getBestIndividual population = some best ∧ best.trainAccuracy = 100 ∧
        (testCases = [] ∨ best.testAccuracy = 100) := by
  unfold hasPerfectSolution getBestIndividual
  cases population with
  | nil => simp
  | cons a t =>
    simp only [List.head?_cons, Option.some.injEq, Bool.and_eq_true, Bool.or_eq_true,
      decide_eq_true_eq]
    constructor
    · rintro ⟨hta, hrest⟩
      refine ⟨a, rfl, hta, ?_⟩
      rcases hrest with hlen | hacc
      · exact Or.inl (List.length_eq_zero.mp hlen)
      · exact Or.inr hacc
    · rintro ⟨best, hbest, hta, hrest⟩
      subst hbest
      refine ⟨hta, ?_⟩
      rcases hrest with hnil | hacc
      · exact Or.inl (by simp [hnil])
      · exact Or.inr hacc

/-! #### Non-termination of the `initialize` filling loop on an adversarial
draw stream -/

theorem initFillLoop_rzero_step (fuel : Nat) :
    initFillLoop settingsTwo [] [] (fuel + 1) fillPop1 fillUniq1 rzero =
      initFillLoop settingsTwo [] [] fuel fillPop1 fillUniq1 rzero := by
  with_unfolding_all rfl

theorem initFillLoop_rzero_none :
    ∀ fuel : Nat, initFillLoop settingsTwo [] [] fuel fillPop1 fillUniq1 rzero = none := by
  intro fuel
  induction fuel with
  | zero => rfl
  | succ n ih => exact (initFillLoop_rzero_step n).trans ih

theorem initPopulation_rzero_none (fuel : Nat) :
    initPopulation settingsTwo [] [] [] fuel rzero = none := by
  cases fuel with
  | zero => rfl
  | succ n =>
    have hf : initFillLoop settingsTwo [] [] (n + 1) ([] : List Individual)
        ([] : List (List Char)) rzero = none := by
      have hstep : initFillLoop settingsTwo [] [] (n + 1) ([] : List Individual)
          ([] : List (List Char)) rzero =
          initFillLoop settingsTwo [] [] n fillPop1 fillUniq1 rzero := by
        with_unfolding_all rfl
      exact hstep.trans (initFillLoop_rzero_none n)
    unfold initPopulation
    dsimp only
    rw [show initSeedLoop settingsTwo [] [] [] 0 [] [] = (([] : List Individual), ([] : List (List Char))) from rfl]
    rw [hf]

theorem rzero_valid : rsValid rzero :=
  fun _ => ⟨le_refl 0, by norm_num [rzero]⟩

theorem evaluateIndividual_trainAccuracy_eq (trainCases testCases : List TestCase)
    (code : List Char) :
    (evaluateIndividual trainCases testCases code).trainAccuracy =
      (if trainCases.length = 0 then 0
       else 100 * (((trainCases.map fun tc =>
         decide (executeBrainfuck code tc.input 10000 = tc.expected)).count true : ℚ) /
           (trainCases.length : ℚ))) := by
  unfold evaluateIndividual
  dsimp only
  rcases Nat.eq_zero_or_pos trainCases.length with h | h
  · rw [if_neg (by omega), if_pos h]
  · rw [if_pos h, if_neg (by omega)]
    ring

theorem evaluateIndividual_testAccuracy_eq (trainCases testCases : List TestCase)
    (code : List Char) :
    (evaluateIndividual trainCases testCases code).testAccuracy =
      (if testCases.length = 0 then 0
       else 100 * (((testCases.map fun tc =>
         decide (executeBrainfuck code tc.input 10000 = tc.expected)).count true : ℚ) /
           (testCases.length : ℚ))) := by
  unfold evaluateIndividual
  dsimp only
  rcases Nat.eq_zero_or_pos testCases.length with h | h
  · rw [if_neg (by omega), if_pos h]
  · rw [if_pos h, if_neg (by omega)]
    ring

/-! ## Claim theorems -/

/-- C1: for every program, input and remaining step budget, if execution
reaches a loop-open whose current cell is zero (or a loop-close whose
current cell is non-zero) that has no entry in the precomputed bracket-match
table, the interpreter halts immediately (at most one more step is counted)
and the run returns exactly the output accumulated up to that point. -/
theorem claim1_unmatched_jump_halts (code : List Char) (input : List Nat)
    (s : BFState) (fuel : Nat)
    (hcp : s.codePointer < code.length) (hh : s.halted = false)
    (h : (code.getD s.codePointer ' ' = '[' ∧ s.memory s.pointer = 0) ∨
         (code.getD s.codePointer ' ' = ']' ∧ s.memory s.pointer ≠ 0))
    (hlk : (buildBracketMap code).lookup s.codePointer = none) :
    (runLoop code (buildBracketMap code) input fuel s).output = s.output ∧
    (runLoop code (buildBracketMap code) input fuel s).steps ≤ s.steps + 1 :=
  runLoop_unmatched_output code input s fuel hcp hh h hlk

/-- Witness for C1: the program `[` from the fresh state. -/
theorem claim1_witness :
    (runLoop ['['] (buildBracketMap ['[']) [] 10000 initState).output = initState.output ∧
    (runLoop ['['] (buildBracketMap ['[']) [] 10000 initState).steps ≤ initState.steps + 1 :=
  claim1_unmatched_jump_halts ['['] [] initState 10000 (by decide) rfl
    (Or.inl ⟨rfl, rfl⟩) (by decide)

/-- C2 (amended): `executeBrainfuck` always returns the output accumulated
by the bounded loop, which executes at most `maxSteps` instructions, both
when the code pointer runs past the program end and when the budget runs
out; the loop `+[+]` always returns — with exactly 100 executed steps for
budget 100, but with exactly 512 executed steps for every budget N ≥ 512,
because the looping cell wraps around to zero and the loop exits. -/
theorem claim2_step_budget :
    (∀ (code : List Char) (input : List Nat) (maxSteps : Nat),
      executeBrainfuck code input maxSteps =
        (runLoop code (buildBracketMap code) input maxSteps initState).output ∧
      execStepsCount code input maxSteps ≤ maxSteps) ∧
    execStepsCount plusLoop [] 100 = 100 ∧
    (∀ N, 512 ≤ N → execStepsCount plusLoop [] N = 512) :=
  ⟨fun code input maxSteps => ⟨rfl, execStepsCount_le code input maxSteps⟩,
   plusLoop_steps_100, plusLoop_steps_ge⟩

/-- Witness for C2 at budget 1000 ≥ 512. -/
theorem claim2_witness :
    512 ≤ 1000 ∧ execStepsCount plusLoop [] 1000 = 512 :=
  ⟨by norm_num, claim2_step_budget.2.2 1000 (by norm_num)⟩

/-- C2 counterexample: with budget N = 1000 the program `+[+]` executes 512
steps, not exactly N = 1000 as claimed. -/
theorem claim2_counterexample :
    execStepsCount plusLoop [] 1000 = 512 ∧ (512 : Nat) ≠ 1000 :=
  ⟨plusLoop_steps_ge 1000 (by norm_num), by norm_num⟩

/-- C3: the evaluated individual's accuracies are 100 × passed/total (0 with
no cases), its fitness is max(0, trainAccuracy − min(length × 0.1, 5)), and
consequently 0 ≤ fitness ≤ 100. -/
theorem claim3_fitness_formula (trainCases testCases : List TestCase) (code : List Char) :
    (evaluateIndividual trainCases testCases code).trainAccuracy =
      (if trainCases.length = 0 then 0
       else 100 * (((trainCases.map fun tc =>
         decide (executeBrainfuck code tc.input 10000 = tc.expected)).count true : ℚ) /
           (trainCases.length : ℚ))) ∧
    (evaluateIndividual trainCases testCases code).testAccuracy =
      (if testCases.length = 0 then 0
       else 100 * (((testCases.map fun tc =>
         decide (executeBrainfuck code tc.input 10000 = tc.expected)).count true : ℚ) /
           (testCases.length : ℚ))) ∧
    (evaluateIndividual trainCases testCases code).fitness =
      max 0 ((evaluateIndividual trainCases testCases code).trainAccuracy -
        min ((code.length : ℚ) * (1 / 10)) 5) ∧
    0 ≤ (evaluateIndividual trainCases testCases code).fitness ∧
    (evaluateIndividual trainCases testCases code).fitness ≤ 100 :=
  ⟨evaluateIndividual_trainAccuracy_eq trainCases testCases code,
   evaluateIndividual_testAccuracy_eq trainCases testCases code,
   evaluateIndividual_fitness_eq trainCases testCases code,
   (evaluateIndividual_fitness_bounds trainCases testCases code).1,
   (evaluateIndividual_fitness_bounds trainCases testCases code).2⟩

/-- C4: whenever `initialize()` or `advance()` returns, the population has
length exactly `populationSize` and is sorted in descending order of
fitness (under the stated precondition on the settings). -/
theorem claim4_population_invariant (settings : GASettings)
    (trainCases testCases : List TestCase)
    (hpos : 1 ≤ settings.populationSize)
    (helit : settings.elitism ≤ settings.populationSize) :
    (∀ (seedGenomes : List (List Char)) (fuel : Nat) (r : RandStream)
       (pop : List Individual) (r' : RandStream),
       initPopulation settings trainCases testCases seedGenomes fuel r = some (pop, r') →
       pop.length = settings.populationSize ∧ List.Sorted fitGE pop) ∧
    (∀ (population : List Individual) (generation fuel : Nat) (r : RandStream)
       (pop' : List Individual) (g' : Nat) (r' : RandStream),
       evolve settings trainCases testCases population generation fuel r =
         some (pop', g', r') →
       pop'.length = settings.populationSize ∧ List.Sorted fitGE pop') :=
  ⟨fun _ _ _ _ _ h => ⟨initPopulation_length h, initPopulation_sorted h⟩,
   fun _ _ _ _ _ _ _ h => ⟨evolve_length h, evolve_sorted h⟩⟩

/-- Witness for C4: a concrete successful `initialize()` run. -/
theorem claim4_witness :
    fillPop1.length = settingsOne.populationSize ∧ List.Sorted fitGE fillPop1 :=
  (claim4_population_invariant settingsOne [] [] (by decide) (by decide)).1
    [] 2 rzero fillPop1 rzero (by with_unfolding_all rfl)

/-- C5: with `elitism ≥ 1`, one `advance()` keeps the top `elitism`
individuals (hence their program strings and cached fitness) in the next
generation, and the best fitness does not decrease. -/
theorem claim5_elitism (settings : GASettings) (trainCases testCases : List TestCase)
    (population : List Individual) (generation fuel : Nat) (r : RandStream)
    (pop' : List Individual) (g' : Nat) (r' : RandStream)
    (he1 : 1 ≤ settings.elitism)
    (heps : settings.elitism ≤ settings.populationSize)
    (hep : settings.elitism ≤ population.length)
    (h : evolve settings trainCases testCases population generation fuel r =
      some (pop', g', r')) :
    (∀ e ∈ population.take settings.elitism, e ∈ pop') ∧
    (∀ b b', population.head? = some b → pop'.head? = some b' →
      b.fitness ≤ b'.fitness) :=
  ⟨evolve_elite_mem h hep heps,
   fun _ _ hb hb' => evolve_best_mono h hep heps he1 hb hb'⟩

/-- Witness for C5: a concrete successful `advance()` run. -/
theorem claim5_witness :
    (∀ e ∈ fillPop1.take settingsOne.elitism, e ∈ fillPop1) ∧
    (∀ b b', fillPop1.head? = some b → fillPop1.head? = some b' →
      b.fitness ≤ b'.fitness) :=
  claim5_elitism settingsOne [] [] fillPop1 0 1 rzero fillPop1 1 rzero
    (by decide) (by decide) (by decide) (by with_unfolding_all rfl)

/-- C6 (amended): the offspring stage stops as soon as its attempt budget
(`populationSize * 10` in `evolve`) is exhausted, even with open slots; the
fallback stage then fills the remaining slots with freshly generated random
individuals but still rejects duplicates: every appended individual's
program string was not previously registered, and the appended strings are
pairwise distinct. -/
theorem claim6_fallback :
    (∀ (settings : GASettings) (trainCases testCases : List TestCase)
       (population newPop : List Individual) (uniq : List (List Char)) (r : RandStream),
       evolveOffspringLoop settings trainCases testCases population 0 newPop uniq r =
         (newPop, uniq, r)) ∧
    (∀ (settings : GASettings) (trainCases testCases : List TestCase) (fuel : Nat)
       (newPop : List Individual) (uniq : List (List Char)) (r : RandStream)
       (pop2 : List Individual) (r2 : RandStream),
       evolveFallbackLoop settings trainCases testCases fuel newPop uniq r =
         some (pop2, r2) →
       ∃ X, pop2 = newPop ++ X ∧ (∀ i ∈ X, i.code ∉ uniq) ∧
         (X.map Individual.code).Nodup) :=
  ⟨fun _ _ _ _ _ _ _ => rfl,
   fun settings t1 t2 fuel newPop uniq r pop2 r2 h =>
     evolveFallbackLoop_append settings t1 t2 fuel newPop uniq r pop2 r2 h⟩

/-- Witness for C6: a concrete successful fallback run that appends one
fresh individual. -/
theorem claim6_witness :
    ∃ X, fillPop1 ++ [evaluateIndividual [] [] fiveRights] = fillPop1 ++ X ∧
      (∀ i ∈ X, i.code ∉ ([] : List (List Char))) ∧
      (X.map Individual.code).Nodup :=
  claim6_fallback.2 settingsTwo [] [] 1 fillPop1 [] rzero
    (fillPop1 ++ [evaluateIndividual [] [] fiveRights]) rzero
    (by with_unfolding_all rfl)

/-- C6 counterexample: the fallback does reject duplicates.  With one free
slot and the candidate program string already present, a fuelled fallback
run adds nothing and ends with the population still short (it would have
completed immediately if duplicates were permitted). -/
theorem claim6_counterexample :
    evolveFallbackLoop settingsTwo [] [] 1 fillPop1 fillUniq1 rzero = none ∧
    fillPop1.length < settingsTwo.populationSize :=
  ⟨by with_unfolding_all rfl, by decide⟩

/-- C7 (amended): program generation, mutation, crossover and evaluation
are bounded, but one `initialize()` (and likewise the fallback stage of
`advance()`) is not bounded by any function of `populationSize`, case
counts and the interpreter budget: with the all-zero draw stream and
population size 2, the uniqueness-retry loop regenerates the same program
forever, so `initialize()` does not terminate within any fuel. -/
theorem claim7_unbounded :
    ∀ fuel : Nat, initPopulation settingsTwo [] [] [] fuel rzero = none :=
  initPopulation_rzero_none

/-- C7 counterexample: no amount of fuel makes that `initialize()` run
return. -/
theorem claim7_counterexample :
    ¬ ∃ fuel : Nat, (initPopulation settingsTwo [] [] [] fuel rzero).isSome = true := by
  rintro ⟨fuel, hf⟩
  rw [initPopulation_rzero_none fuel] at hf
  cases hf

/-- C8: `hasPerfectSolution()` is true exactly when the best individual
exists, its `trainAccuracy` is exactly 100, and either there are no test
cases or its `testAccuracy` is exactly 100; with no best individual it is
false. -/
theorem claim8_perfect_solution (population : List Individual) (testCases : List TestCase) :
    (hasPerfectSolution population testCases = true ↔
      ∃ best, getBestIndividual population = some best ∧ best.trainAccuracy = 100 ∧
        (testCases = [] ∨ best.testAccuracy = 100)) ∧
    (getBestIndividual population = none →
      hasPerfectSolution population testCases = false) := by
  refine ⟨hasPerfectSolution_iff population testCases, ?_⟩
  intro hnone
  unfold hasPerfectSolution
  rw [hnone]

/-- Witness for C8: the empty population. -/
theorem claim8_witness : hasPerfectSolution [] [] = false :=
  (claim8_perfect_solution [] []).2 rfl

/-- C9: mutation never returns an empty program (it falls back to a single
`+`), and crossover of two non-empty parents returns two non-empty
children under every strategy. -/
theorem claim9_nonempty :
    (∀ (program : List Char) (rate : ℚ) (maxLength : Nat) (r : RandStream),
       (mutateProgram program rate maxLength r).1 ≠ []) ∧
    (∀ (p1 p2 : List Char) (r : RandStream), p1 ≠ [] → p2 ≠ [] → rsValid r →
       (crossoverPrograms p1 p2 r).1.1 ≠ [] ∧ (crossoverPrograms p1 p2 r).1.2 ≠ []) :=
  ⟨mutateProgram_ne_nil,
   fun p1 p2 r h1 h2 hv => crossoverPrograms_ne_nil p1 p2 r h1 h2 hv⟩

/-- Witness for C9: crossover of `+` and `-` under the all-zero stream. -/
theorem claim9_witness :
    (crossoverPrograms ['+'] ['-'] rzero).1.1 ≠ [] ∧
    (crossoverPrograms ['+'] ['-'] rzero).1.2 ≠ [] :=
  claim9_nonempty.2 ['+'] ['-'] rzero (by simp) (by simp) rzero_valid

/-- C10: populations built by `initialize()` have pairwise-distinct
program strings, and `advance()` preserves this, so every population in
any `initialize()`-then-`advance()` sequence has pairwise-distinct program
strings (elites and fallback additions included). -/
theorem claim10_distinct_codes :
    (∀ (settings : GASettings) (trainCases testCases : List TestCase)
       (seedGenomes : List (List Char)) (fuel : Nat) (r : RandStream)
       (pop : List Individual) (r' : RandStream),
       initPopulation settings trainCases testCases seedGenomes fuel r = some (pop, r') →
       (pop.map Individual.code).Nodup) ∧
    (∀ (settings : GASettings) (trainCases testCases : List TestCase)
       (population : List Individual) (generation fuel : Nat) (r : RandStream)
       (pop' : List Individual) (g' : Nat) (r' : RandStream),
       evolve settings trainCases testCases population generation fuel r =
         some (pop', g', r') →
       (population.map Individual.code).Nodup →
       (pop'.map Individual.code).Nodup) :=
  ⟨fun _ _ _ _ _ _ _ _ h => initPopulation_nodup h,
   fun _ _ _ _ _ _ _ _ _ _ h hnd => evolve_nodup h hnd⟩

/-- Witness for C10: the concrete `initialize()` run. -/
theorem claim10_witness : (fillPop1.map Individual.code).Nodup :=
  claim10_distinct_codes.1 settingsOne [] [] [] 2 rzero fillPop1 rzero
    (by with_unfolding_all rfl)

end BFGA
